import Mathlib

/-!
# Verification of the hastycsv streaming CSV reader

A shallow embedding of `hastycsv.go` (package `hastycsv`): the power-of-ten
table `base10exp`, the overflow-checked parser `ParseUint32`, the line
splitter `splitBytes`, the field accessors `Field.Uint32` / `Field.Float32`
with their deferred-error discipline, and the streaming driver
`Reader.Read` together with the `bufio.Scanner` line iteration it relies on.

Bytes are modelled as `Nat` (values < 256 in all reachable states); byte
slices as `List Nat`.  Go's `uint64` accumulator is modelled as `Nat` with an
explicit `% 2 ^ 64` where the source performs 64-bit addition, and the final
`uint32(v)` conversion as `% 2 ^ 32`.  Errors built with `fmt.Errorf` are
modelled as inductive values carrying exactly the data interpolated into the
message.  The mutable `Reader.err` slot is modelled by explicit state
passing: each field accessor takes and returns the `Option` error slot.
-/

deriving instance DecidableEq for Except

namespace Hastycsv

/-- The package-level table from `hastycsv.go` lines 19-32, transcribed
entry for entry.  (Note the source literally repeats `100000000000000000`
on two consecutive lines.) -/
def base10exp : List Nat :=
  [1, 10, 100, 1000, 10000, 100000, 1000000, 10000000, 100000000,
   1000000000,
   10000000000,
   100000000000,
   1000000000000,
   10000000000000,
   100000000000000,
   1000000000000000,
   10000000000000000,
   100000000000000000,
   100000000000000000,
   1000000000000000000]

/-- Errors produced by `ParseUint32`, one constructor per `fmt.Errorf` site,
carrying the data interpolated into the message. -/
inductive Uint32Error where
  /-- `"%v" is too long to be parsed as a uint32` -/
  | tooLong (data : List Nat)
  /-- `"%v" contains non-numeric character '%v'` -/
  | invalidDigit (data : List Nat) (ch : Nat)
  /-- `"%v" overflows uint32` -/
  | overflow (data : List Nat)
deriving DecidableEq, Repr

/-- The `for _, ch := range data` loop of `ParseUint32`: `orig` is the full
input (interpolated into the error message), `d` the counter that starts at
`len(data)` and is decremented before each table lookup, `v` the `uint64`
accumulator. -/
def parseUint32Loop (orig : List Nat) : List Nat → Nat → Nat → Except Uint32Error Nat
  | [], _, v => .ok v
  | ch :: rest, d, v =>
    if ch < 48 ∨ 57 < ch then
      .error (.invalidDigit orig ch)
    else
      parseUint32Loop orig rest (d - 1) ((v + (ch - 48) * base10exp.getD (d - 1) 0) % 2 ^ 64)

/-- `ParseUint32` from `hastycsv.go` lines 180-200: length guard, digit
loop with positional table weights, overflow check, `uint32(v)` narrowing. -/
def ParseUint32 (data : List Nat) : Except Uint32Error Nat :=
  if data.length > 10 then
    .error (.tooLong data)
  else
    match parseUint32Loop data data data.length 0 with
    | .error e => .error e
    | .ok v =>
      if v > 4294967295 then .error (.overflow data)
      else .ok (v % 2 ^ 32)

/-- `bytes.IndexByte`: index of the first occurrence of `delim`, or `none`
where Go returns `-1`. -/
def indexByte : List Nat → Nat → Option Nat
  | [], _ => none
  | c :: rest, delim =>
    if c = delim then some 0 else (indexByte rest delim).map (· + 1)

/-- The single failure of `splitBytes` (`"Expected []b to contain %v fields
using delimiter '%+v'"`). -/
inductive SplitError where
  | malformedRecord
deriving DecidableEq, Repr

/-- The `for i := 0; i < len(fields)-1; i++` loop of `splitBytes`: consume
`m` delimiter-terminated fields from `b`, returning them together with the
unconsumed remainder of `b`. -/
def splitFirst (delim : Nat) : Nat → List Nat → Option (List (List Nat) × List Nat)
  | 0, b => some ([], b)
  | m + 1, b =>
    match indexByte b delim with
    | none => none
    | some idx =>
      (splitFirst delim m (b.drop (idx + 1))).map (fun p => (b.take idx :: p.1, p.2))

/-- `splitBytes` from `hastycsv.go` lines 212-223 for a slot table of `n`
fields: the loop fills slots `0 .. n-2`, and slot `n-1` receives whatever
remains of `b`. -/
def splitBytes (delim : Nat) (n : Nat) (b : List Nat) : Except SplitError (List (List Nat)) :=
  match splitFirst delim (n - 1) b with
  | none => .error .malformedRecord
  | some p => .ok (p.1 ++ [p.2])

/-- The deferred error recorded in `Reader.err`: `Field.Uint32` wraps a
`Uint32Error` (`"Can't parse field as uint32: %v"`); `Field.Float32` stores
the `strconv.ParseFloat` error, modelled here by the offending bytes since
`strconv` is outside this repository. -/
inductive DeferredError where
  | uintErr (e : Uint32Error)
  | floatErr (data : List Nat)
deriving DecidableEq, Repr

/-- `Field.Uint32` (`hastycsv.go` lines 156-165): parse the field's bytes,
record the wrapped error in the reader's `err` slot only when that slot is
still empty, and return `ParseUint32`'s value (0 on failure). -/
def fieldUint32 (data : List Nat) (slot : Option DeferredError) :
    Nat × Option DeferredError :=
  match ParseUint32 data with
  | .ok i => (i, slot)
  | .error e =>
    (0, match slot with
        | none => some (.uintErr e)
        | some e0 => some e0)

/-- `Field.Float32` (`hastycsv.go` lines 168-177), with `strconv.ParseFloat`
— library code outside this repository — abstracted as the parameter
`parseFloat`, and the parsed value kept as a `Rat` (the `float32(f)`
narrowing of a successfully parsed value is not modelled; the claims about
this accessor concern only its failure path). -/
def fieldFloat32 (parseFloat : List Nat → Except DeferredError Rat)
    (data : List Nat) (slot : Option DeferredError) : Rat × Option DeferredError :=
  match parseFloat data with
  | .error e =>
    (0, match slot with
        | none => some e
        | some e0 => some e0)
  | .ok f => (f, slot)

/-- `dropCR` of `bufio.ScanLines`: strip one trailing `'\r'` (13). -/
def dropCR (l : List Nat) : List Nat :=
  if l.getLast? = some 13 then l.dropLast else l

/-- One pass of `bufio.Scanner` with `ScanLines`: `acc` holds the bytes of
the current line in reverse; a `'\n'` (10) terminates a token, and leftover
bytes at end of input form a final token. -/
def scanLinesAux (acc : List Nat) : List Nat → List (List Nat)
  | [] => if acc = [] then [] else [dropCR acc.reverse]
  | c :: rest =>
    if c = 10 then dropCR acc.reverse :: scanLinesAux [] rest
    else scanLinesAux (c :: acc) rest

/-- The sequence of lines `lineScanner.Scan()` / `lineScanner.Bytes()`
yields for a byte stream. -/
def scanLines (s : List Nat) : List (List Nat) :=
  scanLinesAux [] s

/-- The terminating error of `Reader.Read`, one constructor per `return`
site, carrying the data interpolated into the message.  `E` is the error
type of the caller's callback. -/
inductive ReadError (E : Type) where
  /-- `Comma delimiter cannot be \r or \n` -/
  | invalidDelimiter
  /-- `Line %v: %v: "%v"` — split failure, with 1-based line number and raw line -/
  | malformed (row : Nat) (line : List Nat)
  /-- `Line %v: %v` — deferred field error found in `me.err` -/
  | deferred (row : Nat) (e : DeferredError)
  /-- `Line %v: %v` — non-nil error returned by the callback -/
  | callback (row : Nat) (e : E)
deriving DecidableEq, Repr

/-- The caller's `Next` callback, as `Reader.Read` interacts with it: it
receives the 1-based line number and the split fields, may mutate its own
captured state `σ` and (through field accessors holding the back-reference
to the reader) the deferred-error slot, and returns an optional abort
error. -/
def Next (σ E : Type) : Type :=
  Nat → List (List Nat) → σ → Option DeferredError → σ × Option DeferredError × Option E

/-- The `for lineScanner.Scan()` loop of `Reader.Read`, past the point where
the field count has been fixed: split each line, invoke the callback, then
check `me.err` first and the callback's error second; at end of input check
`me.err` one final time. -/
def readLoop {σ E : Type} (delim : Nat) (next : Next σ E) (fieldCount : Nat) :
    Nat → Option DeferredError → σ → List (List Nat) → σ × Except (ReadError E) Unit
  | row, err, s, [] =>
    (s, match err with
        | some e => .error (.deferred row e)
        | none => .ok ())
  | row, err, s, b :: rest =>
    match splitBytes delim fieldCount b with
    | .error _ => (s, .error (.malformed (row + 1) b))
    | .ok fields =>
      match next (row + 1) fields s err with
      | (s', some e, _) => (s', .error (.deferred (row + 1) e))
      | (s', none, some cbErr) => (s', .error (.callback (row + 1) cbErr))
      | (s', none, none) => readLoop delim next fieldCount (row + 1) none s' rest

/-- `Reader.Read` (`hastycsv.go` lines 58-108) on a fresh reader (`row = 0`,
`err = nil`): reject `'\r'`/`'\n'` delimiters before touching the stream,
infer the field count as `bytes.Count(firstLine, delim) + 1`, then run the
record loop.  Alongside Go's single error result we return the callback
state `σ`, which in Go lives in the caller's closure. -/
def Read {σ E : Type} (comma : Nat) (input : List Nat) (init : σ) (next : Next σ E) :
    σ × Except (ReadError E) Unit :=
  if comma = 13 ∨ comma = 10 then
    (init, .error .invalidDelimiter)
  else
    readLoop comma next (((scanLines input).headD []).count comma + 1) 0 none init
      (scanLines input)

/-- ASCII bytes of a string literal, for concrete test inputs. -/
def ascii (s : String) : List Nat :=
  s.data.map Char.toNat

/-- The decimal value of a digit string, as the spec reads it ("round-trips
the decimal value exactly"): standard left-to-right base-10 accumulation. -/
def decValue (data : List Nat) : Nat :=
  data.foldl (fun a c => a * 10 + (c - 48)) 0

/-- Naive split-on-delimiter of a whole line, as the spec's words describe
the reference partition for `splitBytes`: every delimiter occurrence
separates two fields. -/
def naiveSplit (delim : Nat) : List Nat → List (List Nat)
  | [] => [[]]
  | c :: rest =>
    if c = delim then
      [] :: naiveSplit delim rest
    else
      match naiveSplit delim rest with
      | [] => [[c]]
      | f :: fs => (c :: f) :: fs

/-- The digit test of `ParseUint32`'s loop (`'0' <= ch <= '9'`), as a
Boolean predicate. -/
def isDigit (c : Nat) : Bool :=
  decide (48 ≤ c) && decide (c ≤ 57)

/-- Positional value of a digit string whose first digit sits at decimal
position `d - 1`: the quantity `ParseUint32`'s loop accumulates. -/
def posSum : List Nat → Nat → Nat
  | [], _ => 0
  | c :: rest, d => (c - 48) * 10 ^ (d - 1) + posSum rest (d - 1)

/-- A callback that records the 1-based line numbers it is invoked with and
never aborts. -/
def logNext : Next (List Nat) Unit :=
  fun i _ s err => (s ++ [i], err, none)

/-- The scenario-A callback: record the line number, the fields, and the
value `Field.Uint32` returns for field index 1. -/
def scenarioANext : Next (List (Nat × List (List Nat) × Nat)) Unit :=
  fun i fields s err =>
    let r := fieldUint32 (fields.getD 1 []) err
    (s ++ [(i, fields, r.1)], r.2, none)

/-- The scenario-B callback: record the line number and call `Field.Uint32`
on field index 1, discarding the value. -/
def scenarioBNext : Next (List Nat) Unit :=
  fun i fields s err =>
    (s ++ [i], (fieldUint32 (fields.getD 1 []) err).2, none)

example : ParseUint32 (ascii "012") = .ok 12 := by decide
example : ParseUint32 (ascii "") = .ok 0 := by decide
example : ParseUint32 (ascii "4294967295") = .ok 4294967295 := by decide
example : ParseUint32 (ascii "4294967296") = .error (.overflow (ascii "4294967296")) := by decide
example : ParseUint32 (ascii "99999999999") = .error (.tooLong (ascii "99999999999")) := by decide
example : ParseUint32 (ascii "123xyz") = .error (.invalidDigit (ascii "123xyz") 120) := by decide
example : splitBytes 124 3 (ascii "bill|30|154.5") = .ok [ascii "bill", ascii "30", ascii "154.5"] := by decide
example : splitBytes 124 4 (ascii "bill|30|154.5") = .error .malformedRecord := by decide
example : splitBytes 124 1 (ascii "bill|30|154.5") = .ok [ascii "bill|30|154.5"] := by decide
example : naiveSplit 124 (ascii "bill|30|154.5") = [ascii "bill", ascii "30", ascii "154.5"] := by decide
example : scanLines (ascii "bill|30|154.5\nmary|35|125.1") =
    [ascii "bill|30|154.5", ascii "mary|35|125.1"] := by decide

/-! ## Lemmas about `ParseUint32` -/

theorem base10exp_getD_eq (i : Nat) (h : i < 10) : base10exp.getD i 0 = 10 ^ i := by
  revert i
  decide

theorem posSum_lt (data : List Nat) : ∀ d : Nat, data.all isDigit = true →
    data.length ≤ d → posSum data d < 10 ^ d := by
  induction data with
  | nil =>
    intro d _ _
    simp only [posSum]
    exact pow_pos (by norm_num) d
  | cons c rest ih =>
    intro d hall hlen
    simp only [List.all_cons, Bool.and_eq_true] at hall
    have hc : c ≤ 57 := by
      have := hall.1
      simp only [isDigit, Bool.and_eq_true, decide_eq_true_eq] at this
      exact this.2
    simp only [List.length_cons] at hlen
    have hd : 1 ≤ d := by omega
    have hrest : posSum rest (d - 1) < 10 ^ (d - 1) := ih (d - 1) hall.2 (by omega)
    have hmul : (c - 48) * 10 ^ (d - 1) ≤ 9 * 10 ^ (d - 1) :=
      Nat.mul_le_mul_right _ (by omega)
    have hpow : 10 ^ (d - 1) * 10 = 10 ^ d := by
      rw [← pow_succ]
      congr 1
      omega
    simp only [posSum]
    omega

theorem parseUint32Loop_ok (data : List Nat) : ∀ (orig : List Nat) (d v : Nat),
    data.all isDigit = true → d ≤ 10 → v + posSum data d < 2 ^ 64 →
    parseUint32Loop orig data d v = .ok (v + posSum data d) := by
  induction data with
  | nil =>
    intro orig d v _ _ _
    simp [parseUint32Loop, posSum]
  | cons c rest ih =>
    intro orig d v hall hd hbound
    simp only [List.all_cons, Bool.and_eq_true] at hall
    have hc : 48 ≤ c ∧ c ≤ 57 := by
      have := hall.1
      simpa only [isDigit, Bool.and_eq_true, decide_eq_true_eq] using this
    have hg : base10exp.getD (d - 1) 0 = 10 ^ (d - 1) :=
      base10exp_getD_eq (d - 1) (by omega)
    have hcons : posSum (c :: rest) d = (c - 48) * 10 ^ (d - 1) + posSum rest (d - 1) := rfl
    have hstep : v + (c - 48) * 10 ^ (d - 1) + posSum rest (d - 1) < 2 ^ 64 := by omega
    have hmod : (v + (c - 48) * 10 ^ (d - 1)) % 2 ^ 64 = v + (c - 48) * 10 ^ (d - 1) :=
      Nat.mod_eq_of_lt (by omega)
    simp only [parseUint32Loop, hg, hmod, if_neg (by omega : ¬(c < 48 ∨ 57 < c))]
    rw [ih orig (d - 1) (v + (c - 48) * 10 ^ (d - 1)) hall.2 (by omega) hstep]
    have harith : v + (c - 48) * 10 ^ (d - 1) + posSum rest (d - 1) = v + posSum (c :: rest) d := by
      omega
    rw [harith]

theorem foldl_decValue (data : List Nat) : ∀ a : Nat,
    data.foldl (fun a c => a * 10 + (c - 48)) a =
      a * 10 ^ data.length + posSum data data.length := by
  induction data with
  | nil =>
    intro a
    simp [posSum]
  | cons c rest ih =>
    intro a
    simp only [List.foldl_cons, List.length_cons, posSum, Nat.add_sub_cancel]
    rw [ih (a * 10 + (c - 48))]
    ring

theorem decValue_eq_posSum (data : List Nat) :
    decValue data = posSum data data.length := by
  have h := foldl_decValue data 0
  simpa [decValue] using h

theorem parseUint32_digits (data : List Nat) (hall : data.all isDigit = true)
    (hlen : data.length ≤ 10) :
    ParseUint32 data =
      (if decValue data > 4294967295 then .error (.overflow data)
       else .ok (decValue data % 2 ^ 32)) := by
  have hps : posSum data data.length < 10 ^ 10 := by
    calc posSum data data.length < 10 ^ data.length := posSum_lt data _ hall le_rfl
    _ ≤ 10 ^ 10 := Nat.pow_le_pow_right (by norm_num) hlen
  have hloop : parseUint32Loop data data data.length 0 = .ok (0 + posSum data data.length) :=
    parseUint32Loop_ok data data data.length 0 hall hlen (by omega)
  simp only [ParseUint32, if_neg (by omega : ¬data.length > 10), hloop, Nat.zero_add,
    decValue_eq_posSum]

theorem parseUint32Loop_bad (data : List Nat) : ∀ (orig : List Nat) (d v c : Nat),
    data.find? (fun x => !isDigit x) = some c →
    parseUint32Loop orig data d v = .error (.invalidDigit orig c) := by
  induction data with
  | nil =>
    intro orig d v c h
    simp at h
  | cons x rest ih =>
    intro orig d v c h
    by_cases hx : isDigit x = true
    · rw [List.find?_cons_of_neg _ (by simp [hx])] at h
      have hxd : 48 ≤ x ∧ x ≤ 57 := by
        simpa only [isDigit, Bool.and_eq_true, decide_eq_true_eq] using hx
      simp only [parseUint32Loop, if_neg (by omega : ¬(x < 48 ∨ 57 < x))]
      exact ih orig (d - 1) _ c h
    · rw [List.find?_cons_of_pos _ (by simp [hx])] at h
      have hc : c = x := by
        simpa using h.symm
      have hxd : x < 48 ∨ 57 < x := by
        have := hx
        simp only [isDigit, Bool.and_eq_true, decide_eq_true_eq] at this
        omega
      subst hc
      simp [parseUint32Loop, if_pos hxd]

/-! ## Claims C4, C5, C6: the `ParseUint32` contract -/

/-- C4: every ASCII string of 1 to 10 decimal digits whose decimal value
fits in a uint32 parses to exactly that value with no error; the empty
input parses to 0 with no error; leading zeros contribute no magnitude
(`"012"` parses to 12). -/
theorem C4_parse_roundtrip :
    (∀ data : List Nat, data.all isDigit = true → data.length ≤ 10 →
      decValue data ≤ 4294967295 → ParseUint32 data = .ok (decValue data))
    ∧ ParseUint32 [] = .ok 0
    ∧ ParseUint32 (ascii "012") = .ok 12 := by
  refine ⟨?_, by decide, by decide⟩
  intro data hall hlen hval
  rw [parseUint32_digits data hall hlen, if_neg (by omega), Nat.mod_eq_of_lt (by omega)]

theorem C4_parse_roundtrip_witness :
    ParseUint32 (ascii "4294967295") = .ok (decValue (ascii "4294967295")) :=
  C4_parse_roundtrip.1 (ascii "4294967295") (by decide) (by decide) (by decide)

/-- C5 as stated is false: the all-digit input `"99999999999"` (11 nines)
has decimal value 99999999999 > 4294967295, yet `ParseUint32` rejects it
with the `TooLong` error, not the `Overflow` error, because the length
guard fires first. -/
theorem C5_counterexample :
    (ascii "99999999999").all isDigit = true
    ∧ 4294967295 < decValue (ascii "99999999999")
    ∧ ParseUint32 (ascii "99999999999") = .error (.tooLong (ascii "99999999999"))
    ∧ ParseUint32 (ascii "99999999999") ≠ .error (.overflow (ascii "99999999999")) := by
  exact ⟨by decide, by decide, by decide, by decide⟩

/-- C5 (amended): every input longer than 10 bytes fails with the `TooLong`
error, and every all-digit input of length at most 10 whose decimal value
exceeds 4294967295 fails with the `Overflow` error. -/
theorem C5_toolong_overflow :
    (∀ data : List Nat, data.length > 10 → ParseUint32 data = .error (.tooLong data))
    ∧ (∀ data : List Nat, data.all isDigit = true → data.length ≤ 10 →
        4294967295 < decValue data → ParseUint32 data = .error (.overflow data)) := by
  constructor
  · intro data h
    simp [ParseUint32, h]
  · intro data hall hlen hval
    rw [parseUint32_digits data hall hlen, if_pos (by omega)]

theorem C5_toolong_overflow_witness :
    ParseUint32 (ascii "99999999999") = .error (.tooLong (ascii "99999999999"))
    ∧ ParseUint32 (ascii "4294967296") = .error (.overflow (ascii "4294967296")) :=
  ⟨C5_toolong_overflow.1 (ascii "99999999999") (by decide),
   C5_toolong_overflow.2 (ascii "4294967296") (by decide) (by decide) (by decide)⟩

/-- C6: every input of length at most 10 containing a non-digit byte fails
with an `InvalidDigit` error naming the first (leftmost) offending byte and
the original literal, and no value is returned. -/
theorem C6_invalid_digit :
    ∀ (data : List Nat) (c : Nat), data.length ≤ 10 →
      data.find? (fun x => !isDigit x) = some c →
      ParseUint32 data = .error (.invalidDigit data c) := by
  intro data c hlen h
  simp only [ParseUint32, if_neg (by omega : ¬data.length > 10)]
  rw [parseUint32Loop_bad data data data.length 0 c h]

theorem C6_invalid_digit_witness :
    ParseUint32 (ascii "123xyz") = .error (.invalidDigit (ascii "123xyz") 120) :=
  C6_invalid_digit (ascii "123xyz") 120 (by decide) (by decide)

/-! ## Lemmas about `splitBytes` -/

theorem indexByte_none_count (d : Nat) : ∀ b : List Nat, indexByte b d = none →
    b.count d = 0 := by
  intro b
  induction b with
  | nil => intro _; rfl
  | cons c rest ih =>
    intro h
    by_cases hc : c = d
    · simp [indexByte, hc] at h
    · cases hrest : indexByte rest d with
      | some i =>
        rw [indexByte, if_neg hc, hrest] at h
        simp at h
      | none =>
        simp [List.count_cons, hc, ih hrest]

theorem indexByte_some_count (d : Nat) : ∀ (b : List Nat) (i : Nat),
    indexByte b d = some i → b.count d = (b.drop (i + 1)).count d + 1 := by
  intro b
  induction b with
  | nil => intro i h; simp [indexByte] at h
  | cons c rest ih =>
    intro i h
    by_cases hc : c = d
    · rw [indexByte, if_pos hc] at h
      have hi : i = 0 := by simpa using h.symm
      subst hi
      subst hc
      simp [List.count_cons]
    · rw [indexByte, if_neg hc] at h
      cases hrest : indexByte rest d with
      | none =>
        rw [hrest] at h
        simp at h
      | some j =>
        rw [hrest] at h
        simp only [Option.map_some', Option.some.injEq] at h
        subst h
        rw [List.drop_succ_cons]
        simp [List.count_cons, hc, ih j hrest]

theorem naiveSplit_of_none (d : Nat) : ∀ b : List Nat, indexByte b d = none →
    naiveSplit d b = [b] := by
  intro b
  induction b with
  | nil => intro _; rfl
  | cons c rest ih =>
    intro h
    by_cases hc : c = d
    · simp [indexByte, hc] at h
    · cases hrest : indexByte rest d with
      | some j =>
        rw [indexByte, if_neg hc, hrest] at h
        simp at h
      | none =>
        simp [naiveSplit, hc, ih hrest]

theorem naiveSplit_of_some (d : Nat) : ∀ (b : List Nat) (i : Nat),
    indexByte b d = some i →
    naiveSplit d b = b.take i :: naiveSplit d (b.drop (i + 1)) := by
  intro b
  induction b with
  | nil => intro i h; simp [indexByte] at h
  | cons c rest ih =>
    intro i h
    by_cases hc : c = d
    · rw [indexByte, if_pos hc] at h
      have hi : i = 0 := by simpa using h.symm
      subst hi
      simp [naiveSplit, hc]
    · rw [indexByte, if_neg hc] at h
      cases hrest : indexByte rest d with
      | none =>
        rw [hrest] at h
        simp at h
      | some j =>
        rw [hrest] at h
        simp only [Option.map_some', Option.some.injEq] at h
        subst h
        simp [naiveSplit, hc, ih j hrest, List.take_succ_cons, List.drop_succ_cons]

theorem splitFirst_of_count (d : Nat) : ∀ (m : Nat) (b : List Nat), b.count d = m →
    ∃ p : List (List Nat) × List Nat,
      splitFirst d m b = some p ∧ p.1 ++ [p.2] = naiveSplit d b := by
  intro m
  induction m with
  | zero =>
    intro b hcount
    refine ⟨([], b), rfl, ?_⟩
    cases hio : indexByte b d with
    | some i =>
      have := indexByte_some_count d b i hio
      omega
    | none =>
      simp [naiveSplit_of_none d b hio]
  | succ m ih =>
    intro b hcount
    cases hio : indexByte b d with
    | none =>
      have := indexByte_none_count d b hio
      omega
    | some i =>
      have hdrop : (b.drop (i + 1)).count d = m := by
        have := indexByte_some_count d b i hio
        omega
      obtain ⟨p, hp, hcat⟩ := ih (b.drop (i + 1)) hdrop
      refine ⟨(b.take i :: p.1, p.2), ?_, ?_⟩
      · simp [splitFirst, hio, hp]
      · simp only [List.cons_append, hcat, naiveSplit_of_some d b i hio]

theorem splitFirst_short (d : Nat) : ∀ (m : Nat) (b : List Nat), b.count d < m →
    splitFirst d m b = none := by
  intro m
  induction m with
  | zero => intro b h; omega
  | succ m ih =>
    intro b h
    cases hio : indexByte b d with
    | none => simp [splitFirst, hio]
    | some i =>
      have := indexByte_some_count d b i hio
      simp [splitFirst, hio, ih (b.drop (i + 1)) (by omega)]

/-! ## Claims C7, C8: the `splitBytes` contract -/

/-- C7: on a line with exactly `k` delimiter occurrences, a `k+1`-slot
table is filled with exactly the partition a naive split-on-delimiter of
the whole line produces, with no error; and a 1-slot table always receives
the entire line untouched, however many delimiters it contains. -/
theorem C7_split_equiv :
    (∀ (delim : Nat) (b : List Nat),
      splitBytes delim (b.count delim + 1) b = .ok (naiveSplit delim b))
    ∧ (∀ (delim : Nat) (b : List Nat), splitBytes delim 1 b = .ok [b]) := by
  constructor
  · intro d b
    obtain ⟨p, hp, hcat⟩ := splitFirst_of_count d (b.count d) b rfl
    simp [splitBytes, hp, hcat]
  · intro d b
    rfl

/-- C8: a line with fewer than `n - 1` delimiter occurrences cannot fill an
`n`-slot table (`n ≥ 2`): `splitBytes` reports the malformed-record error,
and the read loop halts at once with an error carrying the 1-based line
number and the raw line; additionally, end to end, `Read` on
`"a|b|c\nx|y"` dispatches only line 1 and fails with the malformed-record
error for line 2 carrying the raw bytes of `"x|y"`. -/
theorem C8_malformed :
    (∀ (delim n : Nat) (b : List Nat), 2 ≤ n → b.count delim < n - 1 →
      splitBytes delim n b = .error .malformedRecord)
    ∧ (∀ (σ E : Type) (delim fieldCount row : Nat) (err : Option DeferredError)
        (s : σ) (next : Next σ E) (b : List Nat) (rest : List (List Nat)),
        splitBytes delim fieldCount b = .error .malformedRecord →
        readLoop delim next fieldCount row err s (b :: rest) =
          (s, .error (.malformed (row + 1) b)))
    ∧ Read 124 (ascii "a|b|c\nx|y") ([] : List Nat) logNext =
        ([1], .error (.malformed 2 (ascii "x|y"))) := by
  refine ⟨?_, ?_, by decide⟩
  · intro delim n b _ hcount
    simp [splitBytes, splitFirst_short delim (n - 1) b hcount]
  · intro σ E delim fc row err s next b rest h
    simp [readLoop, h]

theorem C8_malformed_witness :
    splitBytes 124 3 (ascii "a|b") = .error .malformedRecord
    ∧ readLoop 124 logNext 3 0 none ([] : List Nat) [ascii "a|b"] =
        ([], .error (.malformed 1 (ascii "a|b"))) :=
  ⟨C8_malformed.1 124 3 (ascii "a|b") (by decide) (by decide),
   C8_malformed.2.1 (List Nat) Unit 124 3 0 none [] logNext (ascii "a|b") []
     (C8_malformed.1 124 3 (ascii "a|b") (by decide) (by decide))⟩

/-! ## Claims C1, C2, C9: the `Reader.Read` driver -/

/-- C1: scenario A — on input `"bill|30|154.5\nmary|35|125.1"` with
delimiter `'|'` (124), a 3-field schema is inferred from the first line;
the first line itself is dispatched as record 1 with fields
`("bill","30","154.5")` and the second as record 2 with
`("mary","35","125.1")`; `Field.Uint32` on field index 1 yields 30 and 35;
and `Read` returns no error. -/
theorem C1_scenarioA :
    ((scanLines (ascii "bill|30|154.5\nmary|35|125.1")).headD []).count 124 + 1 = 3
    ∧ Read 124 (ascii "bill|30|154.5\nmary|35|125.1")
        ([] : List (Nat × List (List Nat) × Nat)) scenarioANext =
      ([(1, [ascii "bill", ascii "30", ascii "154.5"], 30),
        (2, [ascii "mary", ascii "35", ascii "125.1"], 35)],
       .ok ()) := by
  exact ⟨by decide, by decide⟩

/-- C2: after a callback invocation, the deferred-error slot is checked
before the callback's returned signal: a slot set during the callback makes
the loop halt with that error under the 1-based line number, whatever the
callback returned; otherwise a non-nil callback error halts the loop with
that error under the line number; in both cases the remaining lines are
never dispatched.  Scenario B: on `"John|123xyz|12.5\nMary|25|130.5"`,
calling `Field.Uint32` on field `"123xyz"` of line 1 halts the session with
an error naming line 1 and the offending byte `'x'` (120), and line 2 is
never dispatched. -/
theorem C2_halt_order :
    (∀ (σ E : Type) (delim fieldCount row : Nat) (err : Option DeferredError) (s s' : σ)
        (next : Next σ E) (b : List Nat) (rest : List (List Nat))
        (fields : List (List Nat)) (e : DeferredError) (cbErr : Option E),
        splitBytes delim fieldCount b = .ok fields →
        next (row + 1) fields s err = (s', some e, cbErr) →
        readLoop delim next fieldCount row err s (b :: rest) =
          (s', .error (.deferred (row + 1) e)))
    ∧ (∀ (σ E : Type) (delim fieldCount row : Nat) (err : Option DeferredError) (s s' : σ)
        (next : Next σ E) (b : List Nat) (rest : List (List Nat))
        (fields : List (List Nat)) (cbErr : E),
        splitBytes delim fieldCount b = .ok fields →
        next (row + 1) fields s err = (s', none, some cbErr) →
        readLoop delim next fieldCount row err s (b :: rest) =
          (s', .error (.callback (row + 1) cbErr)))
    ∧ Read 124 (ascii "John|123xyz|12.5\nMary|25|130.5") ([] : List Nat) scenarioBNext =
        ([1], .error (.deferred 1 (.uintErr (.invalidDigit (ascii "123xyz") 120)))) := by
  refine ⟨?_, ?_, by decide⟩
  · intro σ E delim fc row err s s' next b rest fields e cbErr hsplit hnext
    simp [readLoop, hsplit, hnext]
  · intro σ E delim fc row err s s' next b rest fields cbErr hsplit hnext
    simp [readLoop, hsplit, hnext]

theorem C2_halt_order_witness :
    readLoop 124 (fun _ _ s _ => (s, some (DeferredError.floatErr []), (some () : Option Unit)))
      2 0 none ([] : List Nat) [ascii "a|b"] =
      ([], .error (.deferred 1 (.floatErr []))) :=
  C2_halt_order.1 (List Nat) Unit 124 2 0 none [] []
    (fun _ _ s _ => (s, some (DeferredError.floatErr []), some ()))
    (ascii "a|b") [] [ascii "a", ascii "b"] (.floatErr []) (some ())
    (by decide) rfl

/-- C9: a delimiter equal to `'\r'` (13) or `'\n'` (10) makes `Read` fail
at once with the invalid-delimiter error, for every input stream and
callback, before any line is consumed and without invoking the callback
(the callback state is returned untouched). -/
theorem C9_invalid_delimiter :
    ∀ (σ E : Type) (comma : Nat) (input : List Nat) (init : σ) (next : Next σ E),
      comma = 13 ∨ comma = 10 →
      Read comma input init next = (init, .error .invalidDelimiter) := by
  intro σ E comma input init next h
  unfold Read
  rw [if_pos h]

theorem C9_invalid_delimiter_witness :
    Read 10 (ascii "a,b\nc,d") ([] : List Nat) logNext = ([], .error .invalidDelimiter) :=
  C9_invalid_delimiter (List Nat) Unit 10 (ascii "a,b\nc,d") [] logNext (Or.inr rfl)

/-! ## Claim C3: the deferred-error discipline of the field accessors -/

/-- C3: when a field's bytes fail to parse, `Field.Uint32` (and likewise
`Field.Float32`, for any behavior of the underlying float parser) returns 0
and records the failure in the reader's deferred-error slot only when that
slot is still empty; a slot already holding an error is left unchanged
(first failure wins); the accessor itself returns normally. -/
theorem C3_deferred_discipline :
    (∀ (data : List Nat) (e : Uint32Error), ParseUint32 data = .error e →
      fieldUint32 data none = (0, some (.uintErr e))
      ∧ ∀ e0 : DeferredError, fieldUint32 data (some e0) = (0, some e0))
    ∧ (∀ (parseFloat : List Nat → Except DeferredError Rat) (data : List Nat)
        (e : DeferredError), parseFloat data = .error e →
      fieldFloat32 parseFloat data none = (0, some e)
      ∧ ∀ e0 : DeferredError, fieldFloat32 parseFloat data (some e0) = (0, some e0)) := by
  constructor
  · intro data e h
    exact ⟨by simp [fieldUint32, h], fun e0 => by simp [fieldUint32, h]⟩
  · intro pf data e h
    exact ⟨by simp [fieldFloat32, h], fun e0 => by simp [fieldFloat32, h]⟩

theorem C3_deferred_discipline_witness :
    fieldUint32 (ascii "12x") none =
      (0, some (.uintErr (.invalidDigit (ascii "12x") 120)))
    ∧ fieldUint32 (ascii "12x") (some (.floatErr [])) = (0, some (.floatErr [])) :=
  ⟨(C3_deferred_discipline.1 (ascii "12x") (.invalidDigit (ascii "12x") 120) (by decide)).1,
   (C3_deferred_discipline.1 (ascii "12x") (.invalidDigit (ascii "12x") 120)
      (by decide)).2 (.floatErr [])⟩

/-! ## Claim C10: the power-of-ten table -/

/-- C10 fails on the code: entries 0..17 of `base10exp` hold `10 ^ i` — in
particular entries 0..9, the only ones `ParseUint32` can reach — but the
source repeats the literal `100000000000000000`, so entry 18 is `10 ^ 17`
rather than `10 ^ 18` and entry 19 is `10 ^ 18` rather than `10 ^ 19`. -/
theorem C10_base10exp_table :
    base10exp.length = 20
    ∧ base10exp.take 18 = (List.range 18).map (fun i => 10 ^ i)
    ∧ base10exp.getD 18 0 = 10 ^ 17
    ∧ base10exp.getD 18 0 ≠ 10 ^ 18
    ∧ base10exp.getD 19 0 = 10 ^ 18
    ∧ base10exp.getD 19 0 ≠ 10 ^ 19 := by
  exact ⟨by decide, by decide, by decide, by decide, by decide, by decide⟩

end Hastycsv
